import Mathlib

/-!
Verification development for the configuration-loading utilities of
`rasa/utils/io.py`: `read_yaml` (YAML parsing with environment-variable
interpolation and a one-shot scanner-error recovery), `read_file`,
`read_config_file`, `read_yaml_file`, `write_yaml_file`, `unarchive`,
`is_subdirectory` and `create_directory_for_file`.

The Python functions under `src/rasa/utils/io.py` are embedded as pure Lean
functions.  External collaborators (the ruamel YAML safe parser and dumper,
the process environment, the filesystem, the tar/zip extractors) are modelled
explicitly: the environment is a function `String → Option String`, the
filesystem a function `String → Option String`, and the YAML parser/dumper
are modelled on the document fragment the repository's code and its claims
exercise (single-document block YAML: comment/blank lines, a top-level block
sequence of scalars, a top-level mapping of scalars, or a single scalar;
plain, single-quoted and double-quoted scalars; YAML 1.2 core-schema
resolution of null/bool/int literals, as the source pins `version = "1.2"`).
The code that the repository itself contributes — the `!env_var` implicit
resolver pattern and constructor from `replace_environment_variables`, the
`or {}` coercion, the `ScannerError` retry with the escaped-unicode
transcoding, the top-level-shape check of `read_config_file`, and the
try/except chains — is translated directly from the source.
-/

/-- Convenient abbreviations for characters that the hard-to-quote parts of
the syntax need. -/
def squo : Char := Char.ofNat 39

def dquo : Char := '"'

def lbrace : Char := Char.ofNat 123

def rbrace : Char := Char.ofNat 125

/-- The `ConfigValue` tree produced by the YAML safe loader: the Python value
returned by `yaml_parser.load` -- `None`, `bool`, `int`, `str`, `list` or
`dict` (string keys only in the modelled fragment). -/
inductive Val where
  | null : Val
  | bool (b : Bool) : Val
  | int (n : Int) : Val
  | str (s : String) : Val
  | seq (items : List Val) : Val
  | map (entries : List (String × Val)) : Val

/-- Python truthiness of a parsed value: `None`, `False`, `0`, `""`, `[]` and
an empty dict are falsy, everything else is truthy.  This is what the
`or {}` in `read_yaml` keys on. -/
def pyTruthy : Val → Bool
  | .null => false
  | .bool b => b
  | .int n => n != 0
  | .str s => s != ""
  | .seq items => !items.isEmpty
  | .map entries => !entries.isEmpty

/-- The errors the embedded functions can raise.  `scanError` models
`ruamel.yaml.scanner.ScannerError` and carries the offending text snippet (the
real exception's mark carries the surrounding buffer text); `parserError`
models the structural errors (`ParserError`/`ComposerError`) that
`read_yaml` does not catch; `unresolvedVariable` models the `ValueError`
raised by `env_var_constructor`, carrying the original scalar and the list of
unexpanded words; `fileNotFound` and `invalidConfigFormat` model the
`ValueError`s raised by `read_file` and `read_config_file`. -/
inductive PyErr where
  | scanError (snippet : List Char) : PyErr
  | parserError : PyErr
  | unresolvedVariable (original : String) (missing : List String) : PyErr
  | fileNotFound (message : String) : PyErr
  | invalidConfigFormat (message : String) : PyErr
deriving DecidableEq

/-- The process environment, read-only during interpolation. -/
abbrev Env := String → Option String

theorem dropWhile_length_le (p : α → Bool) (l : List α) :
    (l.dropWhile p).length ≤ l.length := by
  induction l with
  | nil => simp [List.dropWhile]
  | cons c cs ih =>
    by_cases h : p c
    · simp [List.dropWhile, h]
      omega
    · simp [List.dropWhile, h]

/-- Characters matched by the regex class `\w` under `re.ASCII`, as used by
`os.path.expandvars`. -/
def isWordChar (c : Char) : Bool := (c.isAlpha || c.isDigit) || c == '_'

/-- Characters treated as whitespace by Python's `str.split()`. -/
def pyIsSpace (c : Char) : Bool :=
  ((c == ' ' || c == '\t') || (c == '\n' || c == '\r')) ||
    (c == Char.ofNat 11 || c == Char.ofNat 12)

/-- Model of `os.path.expandvars` (CPython `posixpath.expandvars`): scan left
to right for `$NAME` (word characters) or a brace-delimited `$` form; replace
a match whose name is set in the environment by its value and continue after
the substituted value; keep the text of a match whose name is unset; a `$`
not followed by a word character or a complete brace form is kept verbatim. -/
def expandvars (env : Env) : List Char → List Char
  | [] => []
  | c :: cs =>
    if c == '$' then
      match cs with
      | [] => [c]
      | d :: cs2 =>
        if d == lbrace then
          if cs2.contains rbrace then
            let name := cs2.takeWhile (fun x => !(x == rbrace))
            let rest2 := (cs2.dropWhile (fun x => !(x == rbrace))).tail
            match env (String.mk name) with
            | some v => v.data ++ expandvars env rest2
            | none => c :: d :: (name ++ rbrace :: expandvars env rest2)
          else c :: d :: expandvars env cs2
        else if isWordChar d then
          let name := (d :: cs2).takeWhile isWordChar
          match env (String.mk name) with
          | some v => v.data ++ expandvars env ((d :: cs2).dropWhile isWordChar)
          | none => c :: (name ++ expandvars env ((d :: cs2).dropWhile isWordChar))
        else c :: expandvars env (d :: cs2)
    else c :: expandvars env cs
termination_by l => l.length
decreasing_by
  all_goals simp only [List.length_cons]
  · have h2 := dropWhile_length_le (fun x => !(x == rbrace)) cs2
    have h3 := List.length_tail (cs2.dropWhile (fun x => !(x == rbrace)))
    omega
  · omega
  · have h2 := dropWhile_length_le isWordChar (d :: cs2)
    simp only [List.length_cons] at h2
    omega
  · omega
  · omega

/-- Model of Python's `str.split()` with no arguments: split on runs of
whitespace, discarding empty words. -/
def pyWords : List Char → List (List Char)
  | [] => []
  | c :: cs =>
    if pyIsSpace c then pyWords cs
    else (c :: cs.takeWhile (fun x => !pyIsSpace x)) ::
      pyWords (cs.dropWhile (fun x => !pyIsSpace x))
termination_by l => l.length
decreasing_by
  all_goals simp only [List.length_cons]
  all_goals first
    | omega
    | exact Nat.lt_succ_of_le (dropWhile_length_le _ _)

/-- The `env_var_constructor` registered by `replace_environment_variables`
(src/rasa/utils/io.py lines 79-90): expand the environment variables in the
scalar, and if a `$` remains in the expansion, fail with a `ValueError`
naming the whitespace-separated words that still contain a `$`. -/
def env_var_constructor (env : Env) (value : List Char) : Except PyErr Val :=
  let expandedVars := expandvars env value
  if expandedVars.contains '$' then
    .error (.unresolvedVariable (String.mk value)
      (((pyWords expandedVars).filter (fun w => w.contains '$')).map String.mk))
  else .ok (.str (String.mk expandedVars))

/-- Whether a scalar matches the implicit-resolver pattern
`^(.*)\$\x7b(.*)\x7d(.*)$` registered for the `!env_var` tag
(src/rasa/utils/io.py line 76): the text contains a dollar-brace opener with
a closing brace somewhere after it. -/
def envMatch : List Char → Bool
  | [] => false
  | c :: cs =>
    if c == '$' then
      match cs with
      | [] => false
      | d :: cs2 => if d == lbrace then cs2.contains rbrace else envMatch cs
    else envMatch cs

/-- Plain-scalar spellings that the YAML 1.2 core schema resolves to null. -/
def nullLits : List (List Char) := [[], "~".data, "null".data, "Null".data, "NULL".data]

/-- Plain-scalar spellings resolved to boolean true by the core schema. -/
def trueLits : List (List Char) := ["true".data, "True".data, "TRUE".data]

/-- Plain-scalar spellings resolved to boolean false by the core schema. -/
def falseLits : List (List Char) := ["false".data, "False".data, "FALSE".data]

/-- A non-empty run of decimal digits. -/
def digitsNonempty (l : List Char) : Bool := !l.isEmpty && l.all Char.isDigit

/-- Decimal-integer spellings of the YAML 1.2 core schema (hexadecimal and
octal spellings are outside the modelled fragment). -/
def intShaped (l : List Char) : Bool :=
  match l with
  | [] => false
  | c :: cs =>
    if c == '-' || c == '+' then digitsNonempty cs else digitsNonempty (c :: cs)

/-- Numeric value of one decimal digit character. -/
def digitVal (c : Char) : Nat := c.toNat - 48

/-- Value of a run of decimal digits, most significant first. -/
def natOfDigits (l : List Char) : Nat := l.foldl (fun a c => a * 10 + digitVal c) 0

/-- Integer value of an `intShaped` spelling. -/
def parseIntLit (l : List Char) : Int :=
  match l with
  | [] => 0
  | c :: cs =>
    if c == '-' then -(natOfDigits cs : Int)
    else if c == '+' then (natOfDigits cs : Int)
    else (natOfDigits (c :: cs) : Int)

/-- Resolution of a plain (unquoted) scalar under the safe loader configured
by `read_yaml`: YAML 1.2 core-schema null/bool/int literals; otherwise, if
the scalar matches the `!env_var` implicit-resolver pattern, it is handed to
`env_var_constructor`; otherwise it is a plain string (the loader's string
constructor is overridden by `fix_yaml_loader` to always produce text). -/
def resolve_plain (env : Env) (t : List Char) : Except PyErr Val :=
  if nullLits.contains t then .ok .null
  else if trueLits.contains t then .ok (.bool true)
  else if falseLits.contains t then .ok (.bool false)
  else if intShaped t then .ok (.int (parseIntLit t))
  else if envMatch t then env_var_constructor env t
  else .ok (.str (String.mk t))

/-- Reader for the body of a single-quoted YAML scalar (the opening quote
already consumed): a doubled quote is a literal quote, a single quote closes
the scalar; returns the content and the text after the closing quote, or
`none` when the scalar is unterminated. -/
def readSQBody : List Char → Option (List Char × List Char)
  | [] => none
  | c :: cs =>
    if c == squo then
      match cs with
      | [] => some ([], [])
      | d :: cs2 =>
        if d == squo then (readSQBody cs2).map (fun p => (squo :: p.1, p.2))
        else some ([], cs)
    else (readSQBody cs).map (fun p => (c :: p.1, p.2))

/-- Unescaping of the escape letters the modelled double-quote style uses. -/
def unescapeChar (c : Char) : Option Char :=
  if c == '\\' then some '\\'
  else if c == dquo then some dquo
  else if c == 'n' then some '\n'
  else if c == 'r' then some '\r'
  else if c == 't' then some '\t'
  else if c == '0' then some (Char.ofNat 0)
  else none

/-- Reader for the body of a double-quoted YAML scalar (opening quote already
consumed). -/
def readDQBody : List Char → Option (List Char × List Char)
  | [] => none
  | c :: cs =>
    if c == dquo then some ([], cs)
    else if c == '\\' then
      match cs with
      | [] => none
      | d :: cs2 =>
        match unescapeChar d with
        | some e => (readDQBody cs2).map (fun p => (e :: p.1, p.2))
        | none => none
    else (readDQBody cs).map (fun p => (c :: p.1, p.2))

/-- Spaces trimmed from both ends (plain scalars ignore surrounding blanks). -/
def trimSpaces (l : List Char) : List Char :=
  ((l.dropWhile (fun c => c == ' ')).reverse.dropWhile (fun c => c == ' ')).reverse

/-- Parse one scalar value occupying the rest of a line.  A tab where a plain
token would start or continue is a scanner error (ruamel: "found character
that cannot start any token"), carrying the offending snippet; so is an
unterminated quoted scalar. -/
def parse_value (env : Env) (cs0 : List Char) : Except PyErr Val :=
  match cs0.dropWhile (fun c => c == ' ') with
  | [] => resolve_plain env []
  | c :: cs1 =>
    if c == squo then
      match readSQBody cs1 with
      | some (s, rest) =>
        if rest.all (fun x => x == ' ') then .ok (.str (String.mk s))
        else .error .parserError
      | none => .error (.scanError cs0)
    else if c == dquo then
      match readDQBody cs1 with
      | some (s, rest) =>
        if rest.all (fun x => x == ' ') then .ok (.str (String.mk s))
        else .error .parserError
      | none => .error (.scanError cs0)
    else if (c :: cs1).contains '\t' then .error (.scanError cs0)
    else resolve_plain env (trimSpaces (c :: cs1))

/-- A scalar key token: plain or quoted. -/
inductive KeyTok where
  | plain (k : List Char) : KeyTok
  | quoted (k : List Char) : KeyTok

/-- Split a line at the first colon-space separator (the end of a plain key in
block-mapping context). -/
def splitColonSpace : List Char → Option (List Char × List Char)
  | [] => none
  | c :: cs =>
    if c == ':' then
      match cs with
      | [] => none
      | d :: cs2 =>
        if d == ' ' then some ([], cs2)
        else (splitColonSpace cs).map (fun p => (c :: p.1, p.2))
    else (splitColonSpace cs).map (fun p => (c :: p.1, p.2))

/-- Split a block-mapping line into its key token and the value text, if the
line has that shape. -/
def splitKeyValue (l : List Char) : Option (KeyTok × List Char) :=
  match l with
  | [] => none
  | c :: cs =>
    if c == squo then
      match readSQBody cs with
      | some (k, rest) =>
        match rest with
        | r1 :: r2 :: v => if r1 == ':' && r2 == ' ' then some (.quoted k, v) else none
        | _ => none
      | none => none
    else if c == dquo then
      match readDQBody cs with
      | some (k, rest) =>
        match rest with
        | r1 :: r2 :: v => if r1 == ':' && r2 == ' ' then some (.quoted k, v) else none
        | _ => none
      | none => none
    else (splitColonSpace l).map (fun p => (KeyTok.plain p.1, p.2))

/-- Resolve a key token to its string.  In the modelled fragment only string
keys occur; a plain key whose spelling would resolve to a non-string value
(or trigger the environment-variable constructor) is outside the fragment
and reported as a structural error. -/
def resolve_key (kt : KeyTok) : Except PyErr String :=
  match kt with
  | .quoted k => .ok (String.mk k)
  | .plain k0 =>
    if k0.contains '\t' then .error (.scanError k0)
    else
      let t := trimSpaces k0
      if ((nullLits.contains t || trueLits.contains t) || falseLits.contains t)
          || (intShaped t || envMatch t) then .error .parserError
      else .ok (String.mk t)

/-- Effectful map over a list in the `Except` monad, left to right. -/
def mapMExcept (f : α → Except PyErr β) : List α → Except PyErr (List β)
  | [] => .ok []
  | a :: as => do
    let b ← f a
    let bs ← mapMExcept f as
    pure (b :: bs)

/-- Parse one `key: value` line of a top-level block mapping. -/
def parse_map_line (env : Env) (l : List Char) : Except PyErr (String × Val) :=
  match splitKeyValue l with
  | none => .error .parserError
  | some (kt, v) => do
    let k ← resolve_key kt
    let value ← parse_value env v
    pure (k, value)

/-- Split text into lines at newline characters (the result always has one
more entry than the number of newlines). -/
def splitNl : List Char → List (List Char)
  | [] => [[]]
  | c :: cs =>
    if c == '\n' then [] :: splitNl cs
    else
      match splitNl cs with
      | l :: ls => (c :: l) :: ls
      | [] => [[c]]

/-- A line the YAML scanner skips entirely: blank, or a full-line comment. -/
def isSkippable (l : List Char) : Bool :=
  match l.dropWhile (fun c => c == ' ') with
  | [] => true
  | c :: _ => c == '#'

/-- A top-level block-sequence entry line. -/
def isSeqLine (l : List Char) : Bool :=
  match l with
  | c :: d :: _ => c == '-' && d == ' '
  | _ => false

/-- Parse the non-skippable lines of a document: nothing left parses to null;
the flow form of the empty mapping parses to an empty mapping; a block
sequence of scalars, a block mapping of scalars, or a single scalar line
parse to the corresponding value; anything else in the modelled fragment is
a structural error. -/
def parse_doc (env : Env) (ls : List (List Char)) : Except PyErr Val :=
  match ls with
  | [] => .ok .null
  | l :: rest =>
    if ls = [[lbrace, rbrace]] then .ok (.map [])
    else if isSeqLine l then
      if (l :: rest).all isSeqLine then
        (mapMExcept (fun x => parse_value env (x.drop 2)) (l :: rest)).map Val.seq
      else .error .parserError
    else if rest.isEmpty && (splitKeyValue l).isNone then parse_value env l
    else if (l :: rest).all (fun x => (splitKeyValue x).isSome) then
      (mapMExcept (parse_map_line env) (l :: rest)).map Val.map
    else .error .parserError

/-- Model of `yaml_parser.load(content)` for the safe parser configured by
`read_yaml` (YAML 1.2, unicode strings, `!env_var` resolver registered),
restricted to the modelled document fragment. -/
def yaml_safe_load (env : Env) (content : String) : Except PyErr Val :=
  parse_doc env ((splitNl content.data).filter (fun l => !isSkippable l))

/-- Python's `x or {}` applied to a parse result: a falsy result is replaced
by the empty mapping. -/
def pyOrEmptyMap (v : Val) : Val := if pyTruthy v then v else .map []

/-- Whether an error is a `ruamel.yaml.scanner.ScannerError` (the only class
caught by `read_yaml`). -/
def isScannerError : PyErr → Bool
  | .scanError _ => true
  | _ => false

/-- Hexadecimal digit value. -/
def hexVal (c : Char) : Option Nat :=
  if c.isDigit then some (c.toNat - 48)
  else if 97 ≤ c.toNat && c.toNat ≤ 102 then some (c.toNat - 87)
  else if 65 ≤ c.toNat && c.toNat ≤ 70 then some (c.toNat - 55)
  else none

/-- Value of four hexadecimal digits. -/
def hex4 (a b c d : Char) : Option Nat := do
  let x ← hexVal a
  let y ← hexVal b
  let z ← hexVal c
  let w ← hexVal d
  pure (((x * 16 + y) * 16 + z) * 16 + w)

/-- Core of the recovery transcoding
`content.encode("utf-8").decode("raw_unicode_escape").encode("utf-16",
"surrogatepass").decode("utf-16")`: a literal backslash-u escape of four hex
digits becomes the corresponding character, and an escaped
high-surrogate/low-surrogate pair combines into one supplementary-plane
character.  Unpaired surrogate escapes (whose decoding would not be
representable as scalar values) are kept as literal text in the model. -/
def transcodeCore (fuel : Nat) (l : List Char) : List Char :=
  match fuel with
  | 0 => l
  | fuel + 1 =>
    match l with
    | '\\' :: 'u' :: a :: b :: c :: d :: rest =>
      match hex4 a b c d with
      | none => '\\' :: transcodeCore fuel ('u' :: a :: b :: c :: d :: rest)
      | some n =>
        if n < 0xD800 || 0xDFFF < n then Char.ofNat n :: transcodeCore fuel rest
        else if n ≤ 0xDBFF then
          match rest with
          | '\\' :: 'u' :: a2 :: b2 :: c2 :: d2 :: rest2 =>
            match hex4 a2 b2 c2 d2 with
            | some m =>
              if 0xDC00 ≤ m && m ≤ 0xDFFF then
                Char.ofNat (0x10000 + (n - 0xD800) * 0x400 + (m - 0xDC00)) ::
                  transcodeCore fuel rest2
              else '\\' :: 'u' :: a :: b :: c :: d :: transcodeCore fuel rest
            | none => '\\' :: 'u' :: a :: b :: c :: d :: transcodeCore fuel rest
          | _ => '\\' :: 'u' :: a :: b :: c :: d :: transcodeCore fuel rest
        else '\\' :: 'u' :: a :: b :: c :: d :: transcodeCore fuel rest
    | c :: cs => c :: transcodeCore fuel cs
    | [] => []

/-- The recovery transcoding of `read_yaml` applied to the whole text (the
fuel, bounded by the character count, covers every scanning step). -/
def pyTranscode (content : String) : String :=
  String.mk (transcodeCore content.data.length content.data)

/-- `read_yaml` (src/rasa/utils/io.py lines 95-122): load the content with
the safe parser, replacing a falsy result by the empty mapping; if loading
raises a `ScannerError`, transcode the content once and load again, again
replacing a falsy result by the empty mapping.  An error raised by the
second load — not the original scanner error — is what reaches the caller;
non-scanner errors are never retried. -/
def read_yaml (env : Env) (content : String) : Except PyErr Val :=
  match yaml_safe_load env content with
  | .ok v => .ok (pyOrEmptyMap v)
  | .error e =>
    if isScannerError e then
      match yaml_safe_load env (pyTranscode content) with
      | .ok v => .ok (pyOrEmptyMap v)
      | .error e2 => .error e2
    else .error e

/-- The filesystem as seen by `read_file`: the text content of each existing
file path. -/
abbrev Fs := String → Option String

/-- `read_file` (src/rasa/utils/io.py lines 125-132): return the file's text,
or raise a `ValueError` naming the path when the file does not exist. -/
def read_file (fs : Fs) (filename : String) : Except PyErr String :=
  match fs filename with
  | some content => .ok content
  | none =>
      .error (.fileNotFound
        ("File " ++ String.singleton squo ++ filename ++ String.singleton squo
          ++ " does not exist."))

/-- Python's `str(type(x))` for the values of the modelled fragment. -/
def pyTypeName (v : Val) : String :=
  let q := String.singleton squo
  match v with
  | .null => "<class " ++ q ++ "NoneType" ++ q ++ ">"
  | .bool _ => "<class " ++ q ++ "bool" ++ q ++ ">"
  | .int _ => "<class " ++ q ++ "int" ++ q ++ ">"
  | .str _ => "<class " ++ q ++ "str" ++ q ++ ">"
  | .seq _ => "<class " ++ q ++ "list" ++ q ++ ">"
  | .map _ => "<class " ++ q ++ "dict" ++ q ++ ">"

/-- The invalid-shape message of `read_config_file` for a path and the value
found there. -/
def invalidConfigMsg (filename : String) (v : Val) : String :=
  "Tried to load invalid config file " ++ String.singleton squo ++ filename
    ++ String.singleton squo ++ ". Expected a key value mapping but found "
    ++ pyTypeName v ++ "."

/-- `read_config_file` (src/rasa/utils/io.py lines 147-164): read and parse
the file; a `None` result yields the empty mapping (a branch the `or {}` in
`read_yaml` makes unreachable), a mapping is returned as is, and any other
shape raises a `ValueError` naming the path and the Python type found. -/
def read_config_file (fs : Fs) (env : Env) (filename : String) :
    Except PyErr (List (String × Val)) := do
  let text ← read_file fs filename
  let content ← read_yaml env text
  match content with
  | .null => pure []
  | .map entries => pure entries
  | other => .error (.invalidConfigFormat (invalidConfigMsg filename other))

/-- `read_yaml_file` (src/rasa/utils/io.py lines 167-173): read and parse the
file, with no constraint on the shape of the result. -/
def read_yaml_file (fs : Fs) (env : Env) (filename : String) : Except PyErr Val := do
  let text ← read_file fs filename
  read_yaml env text

/-- Scalar values a configuration mapping may carry: text, numbers
(integers in the modelled fragment) and booleans. -/
inductive SScalar where
  | text (s : String) : SScalar
  | num (n : Int) : SScalar
  | flag (b : Bool) : SScalar

/-- The parsed value a dumped scalar denotes. -/
def scalarVal : SScalar → Val
  | .text s => .str s
  | .num n => .int n
  | .flag b => .bool b

/-- Characters a scalar may consist of for the model dumper to emit it as a
plain (unquoted) scalar.  Dollar signs and braces are ordinary plain-scalar
characters for the emitter — `yaml.dump` knows nothing of the `!env_var`
resolver that `read_yaml` registers on the loading side, so placeholder
text is written unquoted. -/
def isPlainSafeChar (c : Char) : Bool :=
  (c.isAlpha || c == '_') || ((c == '$' || c == lbrace) || c == rbrace)

/-- Whether the model dumper emits a string scalar plain: non-empty, plain
characters only, not starting with a flow indicator, and not a spelling the
loader would resolve to null or a boolean.  (The real emitter dumps plain in
more cases; where the model quotes instead, the loaded value is
unchanged.) -/
def plainSafe (s : List Char) : Bool :=
  match s with
  | [] => false
  | c :: _ =>
    ((!(c == lbrace) && !(c == rbrace)) && s.all isPlainSafeChar) &&
      !((nullLits.contains s || trueLits.contains s) || falseLits.contains s)

/-- Single-quote escaping: a quote is doubled. -/
def sqEsc : List Char → List Char
  | [] => []
  | c :: cs => if c == squo then squo :: squo :: sqEsc cs else c :: sqEsc cs

/-- Double-quote escaping of the characters that would break the line or the
quoting; other characters are emitted verbatim (the real emitter escapes more,
with the same loaded value). -/
def dqEsc : List Char → List Char
  | [] => []
  | c :: cs =>
    (if c == '\\' then ['\\', '\\']
     else if c == dquo then ['\\', dquo]
     else if c == '\n' then ['\\', 'n']
     else if c == '\r' then ['\\', 'r']
     else [c]) ++ dqEsc cs

/-- Model of the dumper's rendering of one string scalar: plain when safe,
single-quoted when it contains no line break, double-quoted otherwise. -/
def dumpStr (s : List Char) : List Char :=
  if plainSafe s then s
  else if s.all (fun c => !(c == '\n' || c == '\r')) then squo :: (sqEsc s ++ [squo])
  else dquo :: (dqEsc s ++ [dquo])

/-- Decimal digits of a natural number, most significant first. -/
def natDigs (n : Nat) : List Char :=
  if h : n < 10 then [Char.ofNat (48 + n)]
  else natDigs (n / 10) ++ [Char.ofNat (48 + n % 10)]
decreasing_by exact Nat.div_lt_self (by omega) (by omega)

/-- Decimal rendering of an integer, as Python prints it. -/
def intChars (n : Int) : List Char :=
  if n < 0 then '-' :: natDigs n.natAbs else natDigs n.toNat

/-- Model of the dumper's rendering of one scalar value. -/
def dumpScalar : SScalar → List Char
  | .text s => dumpStr s.data
  | .num n => intChars n
  | .flag true => "true".data
  | .flag false => "false".data

/-- One `key: value` line of the dumped block mapping. -/
def entryLine (e : String × SScalar) : List Char :=
  dumpStr e.1.data ++ ':' :: ' ' :: dumpScalar e.2

/-- Concatenate lines, each terminated by a newline. -/
def joinLines : List (List Char) → List Char
  | [] => []
  | l :: ls => l ++ '\n' :: joinLines ls

/-- The text `write_yaml_file` (src/rasa/utils/io.py lines 193-201) writes
for a mapping of scalars: `yaml.dump(data, outfile, default_flow_style=False)`
emits one `key: value` line per entry in order (block style), and the empty
flow mapping followed by a newline for an empty dict. -/
def write_yaml_text (data : List (String × SScalar)) : String :=
  if data.isEmpty then String.mk [lbrace, rbrace, '\n']
  else String.mk (joinLines (data.map entryLine))

/-- `write_yaml_file` itself: the serialized text is written to the path,
overwriting any previous content. -/
def write_yaml_file (data : List (String × SScalar)) (filename : String) (fs : Fs) : Fs :=
  fun p => if p == filename then some (write_yaml_text data) else fs p

/-- The error `unarchive` can surface: `zipfile.BadZipFile`, raised by the
zip fallback when the buffer is not a zip archive either (the tar error is
always caught). -/
inductive ArchiveError where
  | badZipFile (message : String) : ArchiveError
deriving DecidableEq

/-- `unarchive` (src/rasa/utils/io.py lines 176-190): try to extract the
byte buffer as a tar archive into the directory; when that raises
`TarError`, extract it as a zip archive instead; either success returns the
directory, and a buffer in neither format surfaces `zipfile.BadZipFile`.
The external extractors are modelled by their format predicates. -/
def unarchive (tarExtracts zipExtracts : List Nat → Bool) (byteArr : List Nat)
    (directory : String) : Except ArchiveError String :=
  if tarExtracts byteArr then .ok directory
  else if zipExtracts byteArr then .ok directory
  else .error (.badZipFile "File is not a zip file")

/-- Model of `os.path.dirname` (posixpath): everything before the final
slash, with trailing slashes stripped unless the head is all slashes. -/
def posixDirname (p : String) : String :=
  let cs := p.data
  let afterRev := cs.reverse.takeWhile (fun c => !(c == '/'))
  let head := cs.take (cs.length - afterRev.length)
  if head.isEmpty || head.all (fun c => c == '/') then String.mk head
  else String.mk (head.reverse.dropWhile (fun c => c == '/')).reverse

/-- Errors of the modelled `os.makedirs`. -/
inductive OsErr where
  | eexist : OsErr
  | enoent : OsErr
deriving DecidableEq

/-- Model of `os.makedirs`: the filesystem state is the list of existing
directories; creating an empty name fails with `ENOENT`, creating an
existing directory fails with `EEXIST`, and otherwise the directory is added
(creation of intermediate directories is elided — it does not affect the
verified properties). -/
def os_makedirs (d : String) (dirs : List String) : Except OsErr (List String) :=
  if d == "" then .error .enoent
  else if dirs.contains d then .error .eexist
  else .ok (d :: dirs)

/-- `create_directory_for_file` (src/rasa/utils/io.py lines 249-257): make
the directories for the file path's dirname, swallowing only `EEXIST`. -/
def create_directory_for_file (filePath : String) (dirs : List String) :
    Except OsErr (List String) :=
  match os_makedirs (posixDirname filePath) dirs with
  | .ok dirs2 => .ok dirs2
  | .error .eexist => .ok dirs
  | .error e => .error e

/-- Model of `os.path.abspath` for the modelled fragment: an absolute path
is returned unchanged (inputs are assumed already normalized), a relative
path is joined to the current working directory. -/
def posixAbspath (cwd p : String) : String :=
  if p.data.head? == some '/' then p else cwd ++ "/" ++ p

/-- Python's substring operator `needle in hay` on strings. -/
def strContainsSub (hay needle : List Char) : Bool :=
  hay.tails.any (fun t => needle.isPrefixOf t)

/-- `is_subdirectory` (src/rasa/utils/io.py lines 204-211): false when either
argument is `None`; otherwise substring containment of the resolved parent
inside the resolved path. -/
def is_subdirectory (cwd : String) (path potentialParentDirectory : Option String) : Bool :=
  match path, potentialParentDirectory with
  | some p, some q => strContainsSub (posixAbspath cwd p).data (posixAbspath cwd q).data
  | _, _ => false

/-- Modelled from the spec: proper path containment — the path is the
candidate parent itself or lies below it at a path-segment boundary
("pure string/path comparison after resolving absolute paths", done on whole
segments rather than raw substrings). -/
def isPathInside (p parent : String) : Bool :=
  p == parent || (parent.data ++ ['/']).isPrefixOf p.data

/-- The not-found message of `read_file` for a path. -/
def notFoundMsg (p : String) : String :=
  "File " ++ String.singleton squo ++ p ++ String.singleton squo ++ " does not exist."

/-- C7: for every byte buffer and target directory, `unarchive` first
attempts extraction as a tar archive; exactly when that fails it retries as
a zip archive; on success of either attempt it returns the target directory,
and when both attempts fail the surfaced error is the unsupported-archive
(bad zip file) error. -/
theorem C7_unarchive_tar_then_zip (tarExtracts zipExtracts : List Nat → Bool)
    (b : List Nat) (d : String) :
    (tarExtracts b = true → unarchive tarExtracts zipExtracts b d = .ok d) ∧
    (tarExtracts b = false → zipExtracts b = true →
      unarchive tarExtracts zipExtracts b d = .ok d) ∧
    (tarExtracts b = false → zipExtracts b = false →
      unarchive tarExtracts zipExtracts b d =
        .error (.badZipFile "File is not a zip file")) :=
  ⟨fun h1 => by simp [unarchive, h1],
   fun h1 h2 => by simp [unarchive, h1, h2],
   fun h1 h2 => by simp [unarchive, h1, h2]⟩

/-- Witness for C7 at concrete extractors: a buffer in neither format
surfaces the bad-zip error, a tar buffer extracts to the directory. -/
theorem C7_unarchive_tar_then_zip_witness :
    unarchive (fun _ => false) (fun _ => false) [0] "target" =
      .error (.badZipFile "File is not a zip file") ∧
    unarchive (fun _ => true) (fun _ => false) [0] "target" = .ok "target" :=
  ⟨(C7_unarchive_tar_then_zip (fun _ => false) (fun _ => false) [0] "target").2.2 rfl rfl,
   (C7_unarchive_tar_then_zip (fun _ => true) (fun _ => false) [0] "target").1 rfl⟩

/-- C9: `is_subdirectory` decides containment by substring containment of
the resolved absolute parent inside the resolved absolute path, so on path
`/foo/barbaz` with candidate parent `/foo/bar` it answers true although the
path does not lie inside that directory under path-segment comparison. -/
theorem C9_is_subdirectory_substring_false_positive (cwd : String) :
    is_subdirectory cwd (some "/foo/barbaz") (some "/foo/bar") = true ∧
    isPathInside "/foo/barbaz" "/foo/bar" = false := by
  exact ⟨rfl, rfl⟩

/-- C8 counterexample: on the bare file name `foo.txt` the dirname is empty;
even in a state that contains the empty name (the process working directory),
`create_directory_for_file` raises `ENOENT` instead of succeeding silently. -/
theorem C8_create_directory_counterexample :
    posixDirname "foo.txt" ∈ [""] ∧
    create_directory_for_file "foo.txt" [""] = .error .enoent := by
  exact ⟨by decide, rfl⟩

/-- C8 (amended): for every file path with a non-empty directory component,
`create_directory_for_file` succeeds silently and without a state change when
the directory already exists, and a second call right after any successful
call returns the state the first call produced. -/
theorem C8_create_directory_idempotent :
    (∀ filePath dirs, posixDirname filePath ≠ "" → posixDirname filePath ∈ dirs →
      create_directory_for_file filePath dirs = .ok dirs) ∧
    (∀ filePath dirs dirs2, create_directory_for_file filePath dirs = .ok dirs2 →
      create_directory_for_file filePath dirs2 = .ok dirs2) := by
  constructor
  · intro filePath dirs hne hmem
    unfold create_directory_for_file os_makedirs
    simp [hne, hmem]
  · intro filePath dirs dirs2 h
    unfold create_directory_for_file os_makedirs at h ⊢
    by_cases h0 : posixDirname filePath = ""
    · simp [h0] at h
    · by_cases h1 : posixDirname filePath ∈ dirs
      · simp [h0, h1] at h
        subst h
        simp [h0, h1]
      · simp [h0, h1] at h
        have h2 : posixDirname filePath ∈ dirs2 := by
          rw [← h]
          exact List.mem_cons_self _ _
        simp [h0, h2]

/-- Witness for C8 (amended): with `d` existing, creating for `d/f.txt` is a
silent no-op, and repeating a creating call is stable. -/
theorem C8_create_directory_idempotent_witness :
    create_directory_for_file "d/f.txt" ["d"] = .ok ["d"] ∧
    create_directory_for_file "e/f.txt" ["d"] = .ok ["e", "d"] ∧
    create_directory_for_file "e/f.txt" ["e", "d"] = .ok ["e", "d"] :=
  ⟨C8_create_directory_idempotent.1 "d/f.txt" ["d"] (by decide) (by decide),
   rfl,
   C8_create_directory_idempotent.2 "e/f.txt" ["d"] ["e", "d"] rfl⟩

/-- C5: loading a configuration file or a YAML file from a path that does
not exist fails with the not-found error, whose message contains that exact
path. -/
theorem C5_missing_file_not_found (fs : Fs) (env : Env) (p : String)
    (h : fs p = none) :
    read_config_file fs env p = .error (.fileNotFound (notFoundMsg p)) ∧
    read_yaml_file fs env p = .error (.fileNotFound (notFoundMsg p)) ∧
    p.data <:+: (notFoundMsg p).data := by
  refine ⟨?_, ?_, ?_⟩
  · simp [read_config_file, read_file, h, notFoundMsg, Bind.bind, Except.bind]
  · simp [read_yaml_file, read_file, h, notFoundMsg, Bind.bind, Except.bind]
  · refine ⟨("File " ++ String.singleton squo).data,
      (String.singleton squo ++ " does not exist.").data, ?_⟩
    simp only [notFoundMsg, String.data_append]
    simp

/-- Witness for C5 at a concrete missing path on a concrete filesystem. -/
theorem C5_missing_file_not_found_witness :
    read_config_file (fun _ => none) (fun _ => none) "conf.yml" =
      .error (.fileNotFound (notFoundMsg "conf.yml")) ∧
    "conf.yml".data <:+: (notFoundMsg "conf.yml").data :=
  ⟨(C5_missing_file_not_found (fun _ => none) (fun _ => none) "conf.yml" rfl).1,
   (C5_missing_file_not_found (fun _ => none) (fun _ => none) "conf.yml" rfl).2.2⟩

/-- The result of the `or {}` coercion is either the empty mapping or a
truthy value. -/
theorem pyOrEmptyMap_truthy_or_empty (v : Val) :
    pyOrEmptyMap v = .map [] ∨ pyTruthy (pyOrEmptyMap v) = true := by
  unfold pyOrEmptyMap
  split
  · right
    assumption
  · left
    rfl

/-- Every successful `read_yaml` result went through the `or {}` coercion:
it is the empty mapping or truthy. -/
theorem read_yaml_result_not_falsy (env : Env) (c : String) (r : Val)
    (h : read_yaml env c = .ok r) :
    r = .map [] ∨ pyTruthy r = true := by
  unfold read_yaml at h
  cases hy : yaml_safe_load env c with
  | ok v =>
    rw [hy] at h
    simp only [Except.ok.injEq] at h
    subst h
    exact pyOrEmptyMap_truthy_or_empty v
  | error e =>
    rw [hy] at h
    by_cases hs : isScannerError e
    · simp only [hs, if_true] at h
      cases hy2 : yaml_safe_load env (pyTranscode c) with
      | ok v =>
        rw [hy2] at h
        simp only [Except.ok.injEq] at h
        subst h
        exact pyOrEmptyMap_truthy_or_empty v
      | error e2 =>
        rw [hy2] at h
        simp at h
    · simp [hs] at h

/-- C1: with `FOO=bar` set in the environment, the scalar placeholder text
loads as the string `bar`; with `MISSING` unset, loading fails with the
unresolved-variable error naming the unresolved token. -/
theorem C1_env_interpolation (env : Env) (hFOO : env "FOO" = some "bar")
    (hMISS : env "MISSING" = none) :
    read_yaml env "$\x7bFOO\x7d" = .ok (.str "bar") ∧
    read_yaml env "$\x7bMISSING\x7d" =
      .error (.unresolvedVariable "$\x7bMISSING\x7d" ["$\x7bMISSING\x7d"]) := by
  have hFOO2 : env (String.mk ['F', 'O', 'O']) = some "bar" := hFOO
  have hMISS2 : env (String.mk ['M', 'I', 'S', 'S', 'I', 'N', 'G']) = none := hMISS
  constructor
  · simp +decide [read_yaml, yaml_safe_load, parse_doc, parse_value, resolve_plain,
      env_var_constructor, expandvars, splitNl, isSkippable, isSeqLine, splitKeyValue,
      splitColonSpace, trimSpaces, envMatch, nullLits, trueLits, falseLits, intShaped,
      digitsNonempty, lbrace, rbrace, squo, dquo, pyOrEmptyMap, pyTruthy,
      List.dropWhile, List.takeWhile, hFOO2]
  · simp +decide [read_yaml, yaml_safe_load, parse_doc, parse_value, resolve_plain,
      env_var_constructor, expandvars, splitNl, isSkippable, isSeqLine, splitKeyValue,
      splitColonSpace, trimSpaces, envMatch, nullLits, trueLits, falseLits, intShaped,
      digitsNonempty, lbrace, rbrace, squo, dquo, pyOrEmptyMap, pyTruthy,
      List.dropWhile, List.takeWhile, pyWords, pyIsSpace, isScannerError, hMISS2]

/-- Witness for C1 at a concrete environment holding only `FOO=bar`. -/
theorem C1_env_interpolation_witness :
    read_yaml (fun n => if n == "FOO" then some "bar" else none) "$\x7bFOO\x7d" =
      .ok (.str "bar") ∧
    read_yaml (fun n => if n == "FOO" then some "bar" else none) "$\x7bMISSING\x7d" =
      .error (.unresolvedVariable "$\x7bMISSING\x7d" ["$\x7bMISSING\x7d"]) :=
  C1_env_interpolation (fun n => if n == "FOO" then some "bar" else none) rfl rfl

/-- C3: the empty document and documents of blank and comment lines only
load as the empty mapping, and a successful load never returns null. -/
theorem C3_empty_and_comments_load_empty_mapping (env : Env) :
    read_yaml env "" = .ok (.map []) ∧
    (∀ content : String, (splitNl content.data).all isSkippable = true →
      read_yaml env content = .ok (.map [])) ∧
    (∀ content : String, ∀ r : Val, read_yaml env content = .ok r → r ≠ .null) := by
  refine ⟨rfl, ?_, ?_⟩
  · intro content hall
    have hfilter : (splitNl content.data).filter (fun l => !isSkippable l) = [] := by
      rw [List.filter_eq_nil_iff]
      intro l hl
      simp only [List.all_eq_true] at hall
      simp [hall l hl]
    unfold read_yaml yaml_safe_load
    rw [hfilter]
    rfl
  · intro content r h
    rcases read_yaml_result_not_falsy env content r h with h2 | h2
    · subst h2
      simp
    · intro hnull
      subst hnull
      simp [pyTruthy] at h2

/-- Witness for C3: a concrete comment-plus-blank document loads as the
empty mapping, and the parse of a concrete scalar document is not null. -/
theorem C3_empty_and_comments_witness :
    read_yaml (fun _ => none) "# only a comment\n   # another\n" = .ok (.map []) ∧
    ((Val.str "hello") = .map [] ∨ pyTruthy (.str "hello") = true) :=
  ⟨(C3_empty_and_comments_load_empty_mapping (fun _ => none)).2.1
      "# only a comment\n   # another\n" (by decide),
   read_yaml_result_not_falsy (fun _ => none) "hello" (.str "hello") rfl⟩

/-- C10: a parse whose top-level value is falsy — null, false, zero, the
empty string, the empty sequence (or an empty mapping) — is coerced to the
empty mapping by `read_yaml`, and consequently `read_yaml_file` can never
return any of those falsy non-mapping values. -/
theorem C10_falsy_becomes_empty_mapping :
    (∀ env : Env, ∀ content : String, ∀ v : Val,
      yaml_safe_load env content = .ok v → pyTruthy v = false →
      read_yaml env content = .ok (.map [])) ∧
    (∀ fs : Fs, ∀ env : Env, ∀ p : String, ∀ r : Val,
      read_yaml_file fs env p = .ok r →
      ((r ≠ .bool false ∧ r ≠ .int 0) ∧ (r ≠ .str "" ∧ r ≠ .seq []))) := by
  constructor
  · intro env content v h hfalsy
    unfold read_yaml
    rw [h]
    simp [pyOrEmptyMap, hfalsy]
  · intro fs env p r h
    unfold read_yaml_file at h
    cases hf : fs p with
    | none =>
      rw [show read_file fs p = .error (.fileNotFound (notFoundMsg p)) by
        simp [read_file, hf, notFoundMsg]] at h
      simp [Bind.bind, Except.bind] at h
    | some text =>
      rw [show read_file fs p = .ok text by simp [read_file, hf]] at h
      simp only [Bind.bind, Except.bind] at h
      rcases read_yaml_result_not_falsy env text r h with h2 | h2
      · subst h2
        refine ⟨⟨?_, ?_⟩, ?_, ?_⟩ <;> simp
      · constructor
        · constructor <;> intro hr <;> subst hr <;> simp [pyTruthy] at h2
        · constructor <;> intro hr <;> subst hr <;> simp [pyTruthy] at h2

/-- Witness for C10: the scalar document `false` parses to the boolean false
yet `read_yaml` returns the empty mapping, also through `read_yaml_file`. -/
theorem C10_falsy_becomes_empty_mapping_witness :
    read_yaml (fun _ => none) "false" = .ok (.map []) ∧
    ((Val.map [] ≠ .bool false ∧ Val.map [] ≠ .int 0) ∧
      (Val.map [] ≠ .str "" ∧ Val.map [] ≠ .seq [])) :=
  ⟨C10_falsy_becomes_empty_mapping.1 (fun _ => none) "false" (.bool false) rfl rfl,
   C10_falsy_becomes_empty_mapping.2 (fun p => if p == "c.yml" then some "false" else none)
     (fun _ => none) "c.yml" (.map []) rfl⟩

/-- C6: a file whose top-level YAML document is a sequence makes
`read_config_file` fail with the invalid-shape error naming the path and the
list type, while `read_yaml_file` on the same file succeeds with the
sequence; a file whose parse result is empty makes `read_config_file`
return the empty mapping. -/
theorem C6_sequence_toplevel_shape (fs : Fs) (env : Env) (p1 p2 : String)
    (h1 : fs p1 = some "- a\n- b") (h2 : fs p2 = some "") :
    read_config_file fs env p1 =
      .error (.invalidConfigFormat (invalidConfigMsg p1 (.seq [.str "a", .str "b"]))) ∧
    read_yaml_file fs env p1 = .ok (.seq [.str "a", .str "b"]) ∧
    p1.data <:+: (invalidConfigMsg p1 (.seq [.str "a", .str "b"])).data ∧
    read_config_file fs env p2 = .ok [] := by
  have hy : read_yaml env "- a\n- b" = .ok (.seq [.str "a", .str "b"]) := rfl
  have hy2 : read_yaml env "" = .ok (.map []) := rfl
  refine ⟨?_, ?_, ?_, ?_⟩
  · simp [read_config_file, read_file, h1, hy, Bind.bind, Except.bind]
  · simp [read_yaml_file, read_file, h1, hy, Bind.bind, Except.bind]
  · refine ⟨("Tried to load invalid config file " ++ String.singleton squo).data,
      (String.singleton squo ++ ". Expected a key value mapping but found "
        ++ pyTypeName (.seq [.str "a", .str "b"]) ++ ".").data, ?_⟩
    simp only [invalidConfigMsg, String.data_append]
    simp
  · simp [read_config_file, read_file, h2, hy2, Bind.bind, Except.bind, pure, Except.pure]

/-- Witness for C6 at a concrete two-file filesystem. -/
theorem C6_sequence_toplevel_shape_witness :
    read_config_file
        (fun p => if p == "l.yml" then some "- a\n- b"
          else if p == "e.yml" then some "" else none)
        (fun _ => none) "l.yml" =
      .error (.invalidConfigFormat (invalidConfigMsg "l.yml" (.seq [.str "a", .str "b"]))) ∧
    read_yaml_file
        (fun p => if p == "l.yml" then some "- a\n- b"
          else if p == "e.yml" then some "" else none)
        (fun _ => none) "l.yml" = .ok (.seq [.str "a", .str "b"]) ∧
    read_config_file
        (fun p => if p == "l.yml" then some "- a\n- b"
          else if p == "e.yml" then some "" else none)
        (fun _ => none) "e.yml" = .ok [] := by
  have h := C6_sequence_toplevel_shape
    (fun p => if p == "l.yml" then some "- a\n- b"
      else if p == "e.yml" then some "" else none)
    (fun _ => none) "l.yml" "e.yml" rfl rfl
  exact ⟨h.1, h.2.1, h.2.2.2⟩

/-- C2 counterexample: on a document holding an escaped surrogate pair
followed by a tab, the first parse fails with a scanner error whose mark is
the untranscoded snippet, but the error `read_yaml` surfaces is the retry's
scanner error on the transcoded text — not the original scanning error. -/
theorem C2_recovery_error_counterexample :
    yaml_safe_load (fun _ => none) "\\ud83d\\ude00\ta" =
      .error (.scanError "\\ud83d\\ude00\ta".data) ∧
    pyTranscode "\\ud83d\\ude00\ta" = "😀\ta" ∧
    read_yaml (fun _ => none) "\\ud83d\\ude00\ta" = .error (.scanError "😀\ta".data) ∧
    PyErr.scanError "😀\ta".data ≠ PyErr.scanError "\\ud83d\\ude00\ta".data := by
  exact ⟨rfl, rfl, rfl, by decide⟩

/-- C2 (amended): when the first parse fails with a scanner error,
`read_yaml` makes exactly one recovery attempt, re-parsing the transcoded
text; a successful retry returns its (falsy-coerced) value, a failed retry
surfaces the retry's own error — which need not be the original scanning
error — and a non-scanner error from the first parse is surfaced with no
retry at all. -/
theorem C2_recovery_retries_once (env : Env) (content : String) :
    (∀ s v, yaml_safe_load env content = .error (.scanError s) →
      yaml_safe_load env (pyTranscode content) = .ok v →
      read_yaml env content = .ok (pyOrEmptyMap v)) ∧
    (∀ s e2, yaml_safe_load env content = .error (.scanError s) →
      yaml_safe_load env (pyTranscode content) = .error e2 →
      read_yaml env content = .error e2) ∧
    (∀ e, yaml_safe_load env content = .error e → isScannerError e = false →
      read_yaml env content = .error e) := by
  refine ⟨?_, ?_, ?_⟩
  · intro s v h1 h2
    unfold read_yaml
    rw [h1, h2]
    simp [isScannerError]
  · intro s e2 h1 h2
    unfold read_yaml
    rw [h1, h2]
    simp [isScannerError]
  · intro e h1 h2
    unfold read_yaml
    rw [h1]
    simp [h2]

/-- Witness for C2 (amended): a lone tab scans to an error, is unchanged by
the transcoding, and the retry's identical error is surfaced. -/
theorem C2_recovery_retries_once_witness :
    read_yaml (fun _ => none) "\t" = .error (.scanError "\t".data) ∧
    read_yaml (fun _ => none) "a\nb" = .error .parserError :=
  ⟨(C2_recovery_retries_once (fun _ => none) "\t").2.1 "\t".data (.scanError "\t".data)
      rfl rfl,
   (C2_recovery_retries_once (fun _ => none) "a\nb").2.2 .parserError rfl rfl⟩

theorem beq_false_of_pred (p : Char → Bool) (c x : Char) (hc : p c = true)
    (hx : p x = false) : (c == x) = false := by
  cases heq : c == x with
  | false => rfl
  | true =>
    rw [beq_iff_eq] at heq
    subst heq
    rw [hc] at hx
    cases hx

theorem isAlpha_not_digit (c : Char) (h : c.isAlpha = true) : c.isDigit = false := by
  simp only [Char.isAlpha, Char.isUpper, Char.isLower, Bool.or_eq_true, Bool.and_eq_true,
    decide_eq_true_eq] at h
  simp only [Char.isDigit, Bool.and_eq_false_iff, decide_eq_false_iff_not, not_le]
  rcases h with ⟨h1, _⟩ | ⟨h1, _⟩
  · right
    intro h3
    have n1 : (65 : UInt32).toNat ≤ c.val.toNat := h1
    have n3 : c.val.toNat ≤ (57 : UInt32).toNat := h3
    have e1 : (65 : UInt32).toNat = 65 := rfl
    have e3 : (57 : UInt32).toNat = 57 := rfl
    omega
  · right
    intro h3
    have n1 : (97 : UInt32).toNat ≤ c.val.toNat := h1
    have n3 : c.val.toNat ≤ (57 : UInt32).toNat := h3
    have e1 : (97 : UInt32).toNat = 97 := rfl
    have e3 : (57 : UInt32).toNat = 57 := rfl
    omega

theorem isPlainSafeChar_not_digit (c : Char) (h : isPlainSafeChar c = true) :
    c.isDigit = false := by
  simp only [isPlainSafeChar, Bool.or_eq_true] at h
  rcases h with (ha | h_) | (h_ | h_) | h_
  · exact isAlpha_not_digit c ha
  all_goals
    rw [beq_iff_eq] at h_
    subst h_
    decide

theorem dropWhile_eq_self_of (p : Char → Bool) (l : List Char)
    (h : ∀ c ∈ l, p c = false) : l.dropWhile p = l := by
  cases l with
  | nil => rfl
  | cons c cs => simp [List.dropWhile_cons, h c (by simp)]

theorem trimSpaces_eq_self (s : List Char) (h : ∀ c ∈ s, (c == ' ') = false) :
    trimSpaces s = s := by
  unfold trimSpaces
  rw [dropWhile_eq_self_of _ s h, dropWhile_eq_self_of, List.reverse_reverse]
  intro c hc
  exact h c (List.mem_reverse.mp hc)

theorem envMatch_eq_false (s : List Char) (h : ∀ c ∈ s, (c == '$') = false) :
    envMatch s = false := by
  induction s with
  | nil => rfl
  | cons c cs ih =>
    rw [envMatch.eq_def]
    simp only [h c (by simp), if_false]
    exact ih fun x hx => h x (by simp [hx])

theorem natDigs_facts (n : Nat) :
    natDigs n ≠ [] ∧ ∀ c ∈ natDigs n, c.isDigit = true := by
  induction n using natDigs.induct with
  | case1 n h =>
    rw [natDigs, dif_pos h]
    refine ⟨by simp, ?_⟩
    intro c hc
    simp only [List.mem_singleton] at hc
    subst hc
    interval_cases n <;> decide
  | case2 n h ih =>
    rw [natDigs, dif_neg h]
    refine ⟨by simp [ih.1], ?_⟩
    intro c hc
    rw [List.mem_append] at hc
    rcases hc with hc | hc
    · exact ih.2 c hc
    · simp only [List.mem_singleton] at hc
      subst hc
      have h10 : n % 10 < 10 := Nat.mod_lt _ (by omega)
      set r := n % 10 with hr
      interval_cases r <;> decide

theorem natOfDigits_append (l : List Char) (c : Char) :
    natOfDigits (l ++ [c]) = natOfDigits l * 10 + digitVal c := by
  unfold natOfDigits
  rw [List.foldl_append]
  rfl

theorem digitVal_ofNat (d : Nat) (h : d < 10) : digitVal (Char.ofNat (48 + d)) = d := by
  interval_cases d <;> decide

theorem natOfDigits_natDigs (n : Nat) : natOfDigits (natDigs n) = n := by
  induction n using natDigs.induct with
  | case1 n h =>
    rw [natDigs, dif_pos h]
    have : natOfDigits [Char.ofNat (48 + n)] = digitVal (Char.ofNat (48 + n)) := by
      simp [natOfDigits]
    rw [this, digitVal_ofNat n h]
  | case2 n h ih =>
    have h10 : n % 10 < 10 := Nat.mod_lt _ (by omega)
    rw [natDigs, dif_neg h, natOfDigits_append, ih, digitVal_ofNat _ h10]
    omega

theorem digitsNonempty_natDigs (n : Nat) : digitsNonempty (natDigs n) = true := by
  have hf := natDigs_facts n
  unfold digitsNonempty
  rw [Bool.and_eq_true, List.all_eq_true]
  constructor
  · simp only [Bool.not_eq_true']
    rw [List.isEmpty_eq_false_iff_exists_mem]
    rcases List.exists_cons_of_ne_nil hf.1 with ⟨c, cs, hc⟩
    exact ⟨c, by simp [hc]⟩
  · exact hf.2

theorem intChars_facts (n : Int) :
    intShaped (intChars n) = true ∧ parseIntLit (intChars n) = n ∧
    ∀ c ∈ intChars n, c.isDigit = true ∨ c = '-' := by
  by_cases hn : n < 0
  · unfold intChars
    rw [if_pos hn]
    have habs : (n.natAbs : Int) = -n := by omega
    refine ⟨?_, ?_, ?_⟩
    · rw [intShaped]
      simp only [show (('-' == '-') || ('-' == '+')) = true from rfl, if_true]
      exact digitsNonempty_natDigs n.natAbs
    · rw [parseIntLit]
      simp only [show ('-' == '-') = true from rfl, if_true]
      unfold natOfDigits
      rw [show (natDigs n.natAbs).foldl (fun a c => a * 10 + digitVal c) 0
          = natOfDigits (natDigs n.natAbs) from rfl, natOfDigits_natDigs, habs]
      omega
    · intro c hc
      rcases List.mem_cons.mp hc with hc | hc
      · right
        exact hc
      · left
        exact (natDigs_facts n.natAbs).2 c hc
  · unfold intChars
    rw [if_neg hn]
    have hf := natDigs_facts n.toNat
    rcases List.exists_cons_of_ne_nil hf.1 with ⟨c, cs, hcons⟩
    have hcd : c.isDigit = true := hf.2 c (by simp [hcons])
    have hne1 : (c == '-') = false := beq_false_of_pred Char.isDigit c '-' hcd (by decide)
    have hne2 : (c == '+') = false := beq_false_of_pred Char.isDigit c '+' hcd (by decide)
    refine ⟨?_, ?_, ?_⟩
    · rw [hcons, intShaped]
      simp only [hne1, hne2, Bool.or_self, if_false, Bool.or_false]
      rw [← hcons]
      exact digitsNonempty_natDigs n.toNat
    · rw [hcons, parseIntLit]
      simp only [hne1, hne2, Bool.false_eq_true, if_false]
      rw [← hcons, natOfDigits_natDigs]
      omega
    · intro c2 hc2
      left
      exact hf.2 c2 hc2

theorem mem_sqEsc (c : Char) (s : List Char) (h : c ∈ sqEsc s) : c ∈ s ∨ c = squo := by
  induction s with
  | nil => simp [sqEsc] at h
  | cons d ds ih =>
    by_cases hd : (d == squo) = true
    · rw [sqEsc, if_pos hd] at h
      rcases List.mem_cons.mp h with h1 | h1
      · right
        exact h1
      · rcases List.mem_cons.mp h1 with h2 | h2
        · right
          exact h2
        · rcases ih h2 with h3 | h3
          · left
            exact List.mem_cons_of_mem d h3
          · right
            exact h3
    · rw [sqEsc, if_neg hd] at h
      rcases List.mem_cons.mp h with h1 | h1
      · left
        simp [h1]
      · rcases ih h1 with h3 | h3
        · left
          exact List.mem_cons_of_mem d h3
        · right
          exact h3

theorem mem_dqEsc (c : Char) (s : List Char) (h : c ∈ dqEsc s) : c ≠ '\n' ∧ c ≠ '\r' := by
  induction s with
  | nil => simp [dqEsc] at h
  | cons d ds ih =>
    rw [dqEsc, List.mem_append] at h
    rcases h with h | h
    · by_cases h1 : (d == '\\') = true
      · rw [if_pos h1] at h
        rcases List.mem_cons.mp h with h2 | h2
        · subst h2
          exact ⟨by decide, by decide⟩
        · simp only [List.mem_singleton] at h2
          subst h2
          exact ⟨by decide, by decide⟩
      · rw [if_neg h1] at h
        by_cases h2 : (d == dquo) = true
        · rw [if_pos h2] at h
          rcases List.mem_cons.mp h with h3 | h3
          · subst h3
            exact ⟨by decide, by decide⟩
          · simp only [List.mem_singleton] at h3
            subst h3
            exact ⟨by decide, by decide⟩
        · rw [if_neg h2] at h
          by_cases h3 : (d == '\n') = true
          · rw [if_pos h3] at h
            rcases List.mem_cons.mp h with h4 | h4
            · subst h4
              exact ⟨by decide, by decide⟩
            · simp only [List.mem_singleton] at h4
              subst h4
              exact ⟨by decide, by decide⟩
          · rw [if_neg h3] at h
            by_cases h4 : (d == '\r') = true
            · rw [if_pos h4] at h
              rcases List.mem_cons.mp h with h5 | h5
              · subst h5
                exact ⟨by decide, by decide⟩
              · simp only [List.mem_singleton] at h5
                subst h5
                exact ⟨by decide, by decide⟩
            · rw [if_neg h4] at h
              simp only [List.mem_singleton] at h
              subst h
              exact ⟨fun he => h3 (by simp [he]), fun he => h4 (by simp [he])⟩
    · exact ih h

theorem readSQBody_sqEsc (s rest : List Char) (hr : rest.head? ≠ some squo) :
    readSQBody (sqEsc s ++ squo :: rest) = some (s, rest) := by
  induction s with
  | nil =>
    show readSQBody (squo :: rest) = some ([], rest)
    rw [readSQBody.eq_def]
    simp only [beq_self_eq_true, if_true]
    cases rest with
    | nil => rfl
    | cons d cs2 =>
      have hd : (d == squo) = false := by
        cases hdq : d == squo with
        | false => rfl
        | true =>
          rw [beq_iff_eq] at hdq
          subst hdq
          simp at hr
      simp [hd]
  | cons c cs ih =>
    by_cases hc : (c == squo) = true
    · rw [beq_iff_eq] at hc
      subst hc
      rw [show sqEsc (squo :: cs) = squo :: squo :: sqEsc cs by
        rw [sqEsc, if_pos (by simp)]]
      rw [show (squo :: squo :: sqEsc cs) ++ squo :: rest
          = squo :: squo :: (sqEsc cs ++ squo :: rest) by simp]
      rw [readSQBody.eq_def]
      simp only [beq_self_eq_true, if_true]
      rw [ih]
      rfl
    · rw [show sqEsc (c :: cs) = c :: sqEsc cs by rw [sqEsc, if_neg hc]]
      rw [show (c :: sqEsc cs) ++ squo :: rest = c :: (sqEsc cs ++ squo :: rest) by simp]
      rw [readSQBody.eq_def]
      simp only [hc, Bool.false_eq_true, if_false]
      rw [ih]
      rfl

theorem readDQBody_dqEsc (s rest : List Char) :
    readDQBody (dqEsc s ++ dquo :: rest) = some (s, rest) := by
  induction s with
  | nil =>
    show readDQBody (dquo :: rest) = some ([], rest)
    rw [readDQBody.eq_def]
    simp
  | cons c cs ih =>
    rw [dqEsc]
    by_cases h1 : (c == '\\') = true
    · rw [beq_iff_eq] at h1
      subst h1
      rw [if_pos (by decide)]
      rw [show (['\\', '\\'] ++ dqEsc cs) ++ dquo :: rest
          = '\\' :: '\\' :: (dqEsc cs ++ dquo :: rest) by simp]
      rw [readDQBody.eq_def]
      simp only [show (('\\' : Char) == dquo) = false by decide, Bool.false_eq_true,
        if_false, show (('\\' : Char) == '\\') = true by decide, if_true]
      rw [show unescapeChar '\\' = some '\\' by decide]
      rw [ih]
      rfl
    · rw [if_neg h1]
      by_cases h2 : (c == dquo) = true
      · rw [beq_iff_eq] at h2
        subst h2
        rw [if_pos (by decide)]
        rw [show (['\\', dquo] ++ dqEsc cs) ++ dquo :: rest
            = '\\' :: dquo :: (dqEsc cs ++ dquo :: rest) by simp]
        rw [readDQBody.eq_def]
        simp only [show (('\\' : Char) == dquo) = false by decide, Bool.false_eq_true,
          if_false, show (('\\' : Char) == '\\') = true by decide, if_true]
        rw [show unescapeChar dquo = some dquo by decide]
        rw [ih]
        rfl
      · rw [if_neg h2]
        by_cases h3 : (c == '\n') = true
        · rw [beq_iff_eq] at h3
          subst h3
          rw [if_pos (by decide)]
          rw [show (['\\', 'n'] ++ dqEsc cs) ++ dquo :: rest
              = '\\' :: 'n' :: (dqEsc cs ++ dquo :: rest) by simp]
          rw [readDQBody.eq_def]
          simp only [show (('\\' : Char) == dquo) = false by decide, Bool.false_eq_true,
            if_false, show (('\\' : Char) == '\\') = true by decide, if_true]
          rw [show unescapeChar 'n' = some '\n' by decide]
          rw [ih]
          rfl
        · rw [if_neg h3]
          by_cases h4 : (c == '\r') = true
          · rw [beq_iff_eq] at h4
            subst h4
            rw [if_pos (by decide)]
            rw [show (['\\', 'r'] ++ dqEsc cs) ++ dquo :: rest
                = '\\' :: 'r' :: (dqEsc cs ++ dquo :: rest) by simp]
            rw [readDQBody.eq_def]
            simp only [show (('\\' : Char) == dquo) = false by decide, Bool.false_eq_true,
              if_false, show (('\\' : Char) == '\\') = true by decide, if_true]
            rw [show unescapeChar 'r' = some '\r' by decide]
            rw [ih]
            rfl
          · rw [if_neg h4]
            rw [show ([c] ++ dqEsc cs) ++ dquo :: rest
                = c :: (dqEsc cs ++ dquo :: rest) by simp]
            rw [readDQBody.eq_def]
            simp only [h2, h1, Bool.false_eq_true, if_false]
            rw [ih]
            rfl

theorem splitColonSpace_append (k v : List Char) (h : ∀ c ∈ k, (c == ':') = false) :
    splitColonSpace (k ++ ':' :: ' ' :: v) = some (k, v) := by
  induction k with
  | nil =>
    show splitColonSpace (':' :: ' ' :: v) = some ([], v)
    rw [splitColonSpace.eq_def]
    simp
  | cons c cs ih =>
    rw [show (c :: cs) ++ ':' :: ' ' :: v = c :: (cs ++ ':' :: ' ' :: v) by simp]
    rw [splitColonSpace.eq_def]
    simp only [h c (by simp), Bool.false_eq_true, if_false]
    rw [ih fun x hx => h x (by simp [hx])]
    rfl

/-- A scalar that never triggers the `!env_var` implicit resolver: its text
does not match the placeholder pattern. -/
def scalarEnvFree : SScalar → Bool
  | .text s => !envMatch s.data
  | _ => true

/-- A mapping entry whose key and value never trigger the `!env_var`
implicit resolver. -/
def entryEnvFree (e : String × SScalar) : Bool :=
  !envMatch e.1.data && scalarEnvFree e.2

theorem contains_eq_false_of_not_mem (l : List Char) (x : Char) (h : x ∉ l) :
    l.contains x = false := by
  induction l with
  | nil => rfl
  | cons c cs ih =>
    rw [List.contains_cons]
    have hx : (x == c) = false := by
      cases he : x == c with
      | false => rfl
      | true =>
        rw [beq_iff_eq] at he
        subst he
        simp at h
    rw [hx, Bool.false_or]
    exact ih fun hm => h (List.mem_cons_of_mem c hm)

theorem plainSafe_facts (s : List Char) (h : plainSafe s = true) :
    (∃ c cs, s = c :: cs ∧ (c == lbrace) = false ∧ (c == rbrace) = false) ∧
    (∀ c ∈ s, isPlainSafeChar c = true) ∧
    (nullLits.contains s = false ∧ trueLits.contains s = false ∧
      falseLits.contains s = false) := by
  cases s with
  | nil => simp [plainSafe] at h
  | cons c cs =>
    rw [plainSafe] at h
    simp only [Bool.and_eq_true, Bool.not_eq_true', Bool.or_eq_false_iff,
      List.all_eq_true] at h
    obtain ⟨⟨⟨hb1, hb2⟩, hall⟩, ⟨hn, ht⟩, hf⟩ := h
    exact ⟨⟨c, cs, rfl, hb1, hb2⟩, hall, hn, ht, hf⟩

theorem intShaped_eq_false_of_plain (s : List Char) (hne : s ≠ [])
    (hall : ∀ c ∈ s, isPlainSafeChar c = true) : intShaped s = false := by
  rcases List.exists_cons_of_ne_nil hne with ⟨c, cs, hcons⟩
  have hc := hall c (by simp [hcons])
  have hd : c.isDigit = false := isPlainSafeChar_not_digit c hc
  have h1 : (c == '-') = false := beq_false_of_pred isPlainSafeChar c '-' hc (by decide)
  have h2 : (c == '+') = false := beq_false_of_pred isPlainSafeChar c '+' hc (by decide)
  subst hcons
  rw [intShaped]
  simp only [h1, h2, Bool.or_self, Bool.false_eq_true, if_false]
  unfold digitsNonempty
  simp [hd]

theorem resolve_plain_plainSafe (env : Env) (s : List Char) (h : plainSafe s = true)
    (henv : envMatch s = false) : resolve_plain env s = .ok (.str (String.mk s)) := by
  obtain ⟨⟨c, cs, hcons, _, _⟩, hall, hn, ht, hf⟩ := plainSafe_facts s h
  have hint : intShaped s = false :=
    intShaped_eq_false_of_plain s (by simp [hcons]) hall
  rw [resolve_plain]
  simp only [hn, ht, hf, hint, henv, Bool.false_eq_true, if_false]

theorem dumpStr_cases (s : List Char) :
    (plainSafe s = true ∧ dumpStr s = s) ∨
    (plainSafe s = false ∧ (∀ c ∈ s, (c == '\n') = false ∧ (c == '\r') = false) ∧
      dumpStr s = squo :: (sqEsc s ++ [squo])) ∨
    (plainSafe s = false ∧ dumpStr s = dquo :: (dqEsc s ++ [dquo])) := by
  by_cases h1 : plainSafe s = true
  · left
    exact ⟨h1, by rw [dumpStr, if_pos h1]⟩
  · rw [Bool.not_eq_true] at h1
    by_cases h2 : s.all (fun c => !(c == '\n' || c == '\r')) = true
    · right
      left
      refine ⟨h1, ?_, by rw [dumpStr, if_neg (by simp [h1]), if_pos h2]⟩
      intro c hc
      have := List.all_eq_true.mp h2 c hc
      simp only [Bool.not_eq_true', Bool.or_eq_false_iff] at this
      exact this
    · right
      right
      rw [Bool.not_eq_true] at h2
      refine ⟨h1, ?_⟩
      rw [dumpStr, if_neg (by simp [h1]), if_neg (by rw [h2]; exact Bool.false_ne_true)]

theorem beq_lit_false (c : Char) (cs lit : List Char) (b : Char) (bs : List Char)
    (hlit : lit = b :: bs) (hb : (c == b) = false) :
    ((c :: cs : List Char) == lit) = false := by
  subst hlit
  show (c == b && cs == bs) = false
  rw [hb, Bool.false_and]

theorem digit_or_dash_beq_false (c : Char) (hc : c.isDigit = true ∨ c = '-') (x : Char)
    (hx1 : x.isDigit = false) (hx2 : (x == '-') = false) : (c == x) = false := by
  rcases hc with hc | hc
  · exact beq_false_of_pred Char.isDigit c x hc hx1
  · subst hc
    cases he : '-' == x with
    | false => rfl
    | true =>
      rw [beq_iff_eq] at he
      subst he
      simp at hx2

theorem lits_contains_intChars (c : Char) (cs : List Char)
    (hc : c.isDigit = true ∨ c = '-') :
    nullLits.contains (c :: cs) = false ∧ trueLits.contains (c :: cs) = false ∧
      falseLits.contains (c :: cs) = false := by
  have e0 : ((c :: cs : List Char) == []) = false := rfl
  have e1 : ((c :: cs : List Char) == "~".data) = false :=
    beq_lit_false c cs "~".data '~' [] rfl
      (digit_or_dash_beq_false c hc '~' (by decide) (by decide))
  have e2 : ((c :: cs : List Char) == "null".data) = false :=
    beq_lit_false c cs "null".data 'n' "ull".data rfl
      (digit_or_dash_beq_false c hc 'n' (by decide) (by decide))
  have e3 : ((c :: cs : List Char) == "Null".data) = false :=
    beq_lit_false c cs "Null".data 'N' "ull".data rfl
      (digit_or_dash_beq_false c hc 'N' (by decide) (by decide))
  have e4 : ((c :: cs : List Char) == "NULL".data) = false :=
    beq_lit_false c cs "NULL".data 'N' "ULL".data rfl
      (digit_or_dash_beq_false c hc 'N' (by decide) (by decide))
  have e5 : ((c :: cs : List Char) == "true".data) = false :=
    beq_lit_false c cs "true".data 't' "rue".data rfl
      (digit_or_dash_beq_false c hc 't' (by decide) (by decide))
  have e6 : ((c :: cs : List Char) == "True".data) = false :=
    beq_lit_false c cs "True".data 'T' "rue".data rfl
      (digit_or_dash_beq_false c hc 'T' (by decide) (by decide))
  have e7 : ((c :: cs : List Char) == "TRUE".data) = false :=
    beq_lit_false c cs "TRUE".data 'T' "RUE".data rfl
      (digit_or_dash_beq_false c hc 'T' (by decide) (by decide))
  have e8 : ((c :: cs : List Char) == "false".data) = false :=
    beq_lit_false c cs "false".data 'f' "alse".data rfl
      (digit_or_dash_beq_false c hc 'f' (by decide) (by decide))
  have e9 : ((c :: cs : List Char) == "False".data) = false :=
    beq_lit_false c cs "False".data 'F' "alse".data rfl
      (digit_or_dash_beq_false c hc 'F' (by decide) (by decide))
  have e10 : ((c :: cs : List Char) == "FALSE".data) = false :=
    beq_lit_false c cs "FALSE".data 'F' "ALSE".data rfl
      (digit_or_dash_beq_false c hc 'F' (by decide) (by decide))
  refine ⟨?_, ?_, ?_⟩ <;>
    simp only [nullLits, trueLits, falseLits, List.contains_cons, e0, e1, e2, e3, e4,
      e5, e6, e7, e8, e9, e10, Bool.false_or, Bool.or_false, List.contains_nil]

theorem parse_value_dumpScalar (env : Env) (v : SScalar) (henv : scalarEnvFree v = true) :
    parse_value env (dumpScalar v) = .ok (scalarVal v) := by
  cases v with
  | text s =>
    have henv2 : envMatch s.data = false := by
      simpa [scalarEnvFree] using henv
    show parse_value env (dumpStr s.data) = .ok (.str s)
    rcases dumpStr_cases s.data with ⟨hps, hds⟩ | ⟨hps, hnl, hds⟩ | ⟨hps, hds⟩
    · -- plain
      obtain ⟨⟨c, cs, hcons, _, _⟩, hall, _⟩ := plainSafe_facts s.data hps
      have hnospace : ∀ x ∈ s.data, (x == ' ') = false := fun x hx =>
        beq_false_of_pred isPlainSafeChar x ' ' (hall x hx) (by decide)
      have hnotab : ('\t' : Char) ∉ s.data := fun hm => by
        have h2 := hall _ hm
        rw [show isPlainSafeChar '\t' = false from by decide] at h2
        cases h2
      have hq1 : (c == squo) = false :=
        beq_false_of_pred isPlainSafeChar c squo (hall c (by simp [hcons])) (by decide)
      have hq2 : (c == dquo) = false :=
        beq_false_of_pred isPlainSafeChar c dquo (hall c (by simp [hcons])) (by decide)
      rw [hds, parse_value.eq_def, dropWhile_eq_self_of _ _ hnospace, hcons]
      simp only [hq1, hq2, Bool.false_eq_true, if_false]
      rw [← hcons, contains_eq_false_of_not_mem s.data '\t' hnotab]
      simp only [Bool.false_eq_true, if_false]
      rw [trimSpaces_eq_self s.data hnospace, resolve_plain_plainSafe env s.data hps henv2]
    · -- single-quoted
      rw [hds, parse_value.eq_def]
      rw [show List.dropWhile (fun c => c == ' ') (squo :: (sqEsc s.data ++ [squo]))
          = squo :: (sqEsc s.data ++ [squo]) by
        rw [List.dropWhile_cons]
        simp only [show ((squo == ' ') = false) from by decide, Bool.false_eq_true, if_false]]
      simp only [beq_self_eq_true, if_true]
      rw [show sqEsc s.data ++ [squo] = sqEsc s.data ++ squo :: [] from rfl,
        readSQBody_sqEsc s.data [] (by simp)]
      simp
    · -- double-quoted
      rw [hds, parse_value.eq_def]
      rw [show List.dropWhile (fun c => c == ' ') (dquo :: (dqEsc s.data ++ [dquo]))
          = dquo :: (dqEsc s.data ++ [dquo]) by
        rw [List.dropWhile_cons]
        simp only [show ((dquo == ' ') = false) from by decide, Bool.false_eq_true, if_false]]
      simp only [show ((dquo == squo) = false) from by decide, Bool.false_eq_true, if_false,
        beq_self_eq_true, if_true]
      rw [show dqEsc s.data ++ [dquo] = dqEsc s.data ++ dquo :: [] from rfl,
        readDQBody_dqEsc s.data []]
      simp
  | num n =>
    obtain ⟨hint, hparse, hmem⟩ := intChars_facts n
    show parse_value env (intChars n) = .ok (.int n)
    rcases hni : intChars n with _ | ⟨c, cs⟩
    · rw [hni] at hint
      simp [intShaped] at hint
    · have hc : c.isDigit = true ∨ c = '-' := hmem c (by simp [hni])
      have hq1 : (c == squo) = false :=
        digit_or_dash_beq_false c hc squo (by decide) (by decide)
      have hq2 : (c == dquo) = false :=
        digit_or_dash_beq_false c hc dquo (by decide) (by decide)
      have hnospace : ∀ x ∈ intChars n, (x == ' ') = false := fun x hx =>
        digit_or_dash_beq_false x (hmem x hx) ' ' (by decide) (by decide)
      have hnotab : ('\t' : Char) ∉ intChars n := fun hm => by
        rcases hmem _ hm with h2 | h2
        · rw [show ('\t' : Char).isDigit = false from by decide] at h2
          cases h2
        · cases h2
      have hnospace2 : ∀ x ∈ (c :: cs : List Char), (x == ' ') = false := by
        rw [← hni]
        exact hnospace
      rw [parse_value.eq_def, dropWhile_eq_self_of _ _ hnospace2]
      simp only [hq1, hq2, Bool.false_eq_true, if_false]
      rw [← hni, contains_eq_false_of_not_mem _ '\t' hnotab]
      simp only [Bool.false_eq_true, if_false]
      rw [trimSpaces_eq_self _ hnospace]
      obtain ⟨hl1, hl2, hl3⟩ := lits_contains_intChars c cs hc
      rw [resolve_plain, hni]
      simp only [hl1, hl2, hl3, Bool.false_eq_true, if_false]
      rw [← hni, hint]
      simp only [if_true]
      rw [hparse]
  | flag b =>
    cases b <;> rfl

theorem beq_eq_false_of_ne (a b : Char) (h : a ≠ b) : (a == b) = false := by
  cases he : a == b with
  | false => rfl
  | true =>
    rw [beq_iff_eq] at he
    exact absurd he h

theorem dumpStr_no_nl (s : List Char) :
    ∀ c ∈ dumpStr s, (c == '\n') = false ∧ (c == '\r') = false := by
  rcases dumpStr_cases s with ⟨hps, hds⟩ | ⟨hps, hnl, hds⟩ | ⟨hps, hds⟩ <;> rw [hds]
  · intro c hc
    have h1 := (plainSafe_facts s hps).2.1 c hc
    exact ⟨beq_false_of_pred isPlainSafeChar c '\n' h1 (by decide),
      beq_false_of_pred isPlainSafeChar c '\r' h1 (by decide)⟩
  · intro c hc
    rcases List.mem_cons.mp hc with hc | hc
    · subst hc
      exact ⟨by decide, by decide⟩
    · rw [List.mem_append] at hc
      rcases hc with hc | hc
      · rcases mem_sqEsc c s hc with hc2 | hc2
        · exact hnl c hc2
        · subst hc2
          exact ⟨by decide, by decide⟩
      · simp only [List.mem_singleton] at hc
        subst hc
        exact ⟨by decide, by decide⟩
  · intro c hc
    rcases List.mem_cons.mp hc with hc | hc
    · subst hc
      exact ⟨by decide, by decide⟩
    · rw [List.mem_append] at hc
      rcases hc with hc | hc
      · have h2 := mem_dqEsc c s hc
        exact ⟨beq_eq_false_of_ne c '\n' h2.1, beq_eq_false_of_ne c '\r' h2.2⟩
      · simp only [List.mem_singleton] at hc
        subst hc
        exact ⟨by decide, by decide⟩

theorem dumpStr_head (s : List Char) :
    ∃ c cs, dumpStr s = c :: cs ∧ (c == ' ') = false ∧ (c == '#') = false ∧
      (c == '-') = false ∧ (c == lbrace) = false := by
  rcases dumpStr_cases s with ⟨hps, hds⟩ | ⟨hps, hnl, hds⟩ | ⟨hps, hds⟩
  · obtain ⟨⟨c, cs, hcons, hb1, _⟩, hall, _⟩ := plainSafe_facts s hps
    have hc := hall c (by simp [hcons])
    refine ⟨c, cs, by rw [hds, hcons], ?_, ?_, ?_, hb1⟩
    · exact beq_false_of_pred isPlainSafeChar c ' ' hc (by decide)
    · exact beq_false_of_pred isPlainSafeChar c '#' hc (by decide)
    · exact beq_false_of_pred isPlainSafeChar c '-' hc (by decide)
  · exact ⟨squo, sqEsc s ++ [squo], by rw [hds], by decide, by decide, by decide, by decide⟩
  · exact ⟨dquo, dqEsc s ++ [dquo], by rw [hds], by decide, by decide, by decide, by decide⟩

/-- The key token the model dumper produces for a key. -/
def keyTokOf (k : List Char) : KeyTok :=
  if plainSafe k then .plain k else .quoted k

theorem splitKeyValue_dumpStr (k v : List Char) :
    splitKeyValue (dumpStr k ++ ':' :: ' ' :: v) = some (keyTokOf k, v) := by
  rcases dumpStr_cases k with ⟨hps, hds⟩ | ⟨hps, hnl, hds⟩ | ⟨hps, hds⟩
  · obtain ⟨⟨c, cs, hcons, _, _⟩, hall, _⟩ := plainSafe_facts k hps
    have hq1 : (c == squo) = false :=
      beq_false_of_pred isPlainSafeChar c squo (hall c (by simp [hcons])) (by decide)
    have hq2 : (c == dquo) = false :=
      beq_false_of_pred isPlainSafeChar c dquo (hall c (by simp [hcons])) (by decide)
    have hnocolon : ∀ x ∈ k, (x == ':') = false := fun x hx =>
      beq_false_of_pred isPlainSafeChar x ':' (hall x hx) (by decide)
    rw [hds, hcons, show (c :: cs) ++ ':' :: ' ' :: v = c :: (cs ++ ':' :: ' ' :: v) by simp,
      splitKeyValue]
    simp only [hq1, hq2, Bool.false_eq_true, if_false]
    rw [show c :: (cs ++ ':' :: ' ' :: v) = (c :: cs) ++ ':' :: ' ' :: v by simp, ← hcons,
      splitColonSpace_append k v hnocolon]
    rw [keyTokOf, if_pos hps]
    rfl
  · rw [hds, show (squo :: (sqEsc k ++ [squo])) ++ ':' :: ' ' :: v
        = squo :: (sqEsc k ++ squo :: ':' :: ' ' :: v) by simp, splitKeyValue]
    simp only [beq_self_eq_true, if_true]
    rw [readSQBody_sqEsc k (':' :: ' ' :: v)
      (by intro h; exact absurd (Option.some.inj h) (by decide))]
    simp only [show ((':' : Char) == ':') = true from by decide,
      show ((' ' : Char) == ' ') = true from by decide, Bool.and_self, if_true]
    rw [keyTokOf, if_neg (by rw [hps]; exact Bool.false_ne_true)]
  · rw [hds, show (dquo :: (dqEsc k ++ [dquo])) ++ ':' :: ' ' :: v
        = dquo :: (dqEsc k ++ dquo :: ':' :: ' ' :: v) by simp, splitKeyValue]
    simp only [show ((dquo == squo) = false) from by decide, Bool.false_eq_true, if_false,
      beq_self_eq_true, if_true]
    rw [readDQBody_dqEsc k (':' :: ' ' :: v)]
    simp only [show ((':' : Char) == ':') = true from by decide,
      show ((' ' : Char) == ' ') = true from by decide, Bool.and_self, if_true]
    rw [keyTokOf, if_neg (by rw [hps]; exact Bool.false_ne_true)]

theorem resolve_key_keyTokOf (k : List Char) (henv : envMatch k = false) :
    resolve_key (keyTokOf k) = .ok (String.mk k) := by
  rw [keyTokOf]
  by_cases hps : plainSafe k = true
  · rw [if_pos hps]
    obtain ⟨⟨c, cs, hcons, _, _⟩, hall, hn, ht, hf⟩ := plainSafe_facts k hps
    have hnotab : ('\t' : Char) ∉ k := fun hm => by
      have h2 := hall _ hm
      rw [show isPlainSafeChar '\t' = false from by decide] at h2
      cases h2
    have hnospace : ∀ x ∈ k, (x == ' ') = false := fun x hx =>
      beq_false_of_pred isPlainSafeChar x ' ' (hall x hx) (by decide)
    have hint : intShaped k = false :=
      intShaped_eq_false_of_plain k (by simp [hcons]) hall
    rw [resolve_key]
    rw [contains_eq_false_of_not_mem k '\t' hnotab]
    simp only [Bool.false_eq_true, if_false]
    rw [trimSpaces_eq_self k hnospace]
    simp only [hn, ht, hf, hint, henv, Bool.or_self, Bool.false_or, Bool.or_false,
      Bool.false_eq_true, if_false]
  · rw [if_neg hps]
    rfl

theorem splitKeyValue_entryLine (e : String × SScalar) :
    splitKeyValue (entryLine e) = some (keyTokOf e.1.data, dumpScalar e.2) := by
  rw [entryLine]
  exact splitKeyValue_dumpStr e.1.data (dumpScalar e.2)

theorem parse_map_line_entry (env : Env) (e : String × SScalar)
    (henv : entryEnvFree e = true) :
    parse_map_line env (entryLine e) = .ok (e.1, scalarVal e.2) := by
  have h1 : envMatch e.1.data = false ∧ scalarEnvFree e.2 = true := by
    simpa [entryEnvFree] using henv
  rw [parse_map_line, splitKeyValue_entryLine]
  show (do
      let k ← resolve_key (keyTokOf e.1.data)
      let value ← parse_value env (dumpScalar e.2)
      pure (k, value) : Except PyErr (String × Val)) = .ok (e.1, scalarVal e.2)
  rw [resolve_key_keyTokOf e.1.data h1.1]
  rw [show (String.mk e.1.data) = e.1 from rfl]
  simp only [Bind.bind, Except.bind, parse_value_dumpScalar env e.2 h1.2, pure, Except.pure]

theorem mapMExcept_map (f : α → Except PyErr β) (g : γ → α) (hf : γ → β) (l : List γ)
    (hfg : ∀ x ∈ l, f (g x) = .ok (hf x)) :
    mapMExcept f (l.map g) = .ok (l.map hf) := by
  induction l with
  | nil => rfl
  | cons x xs ih =>
    rw [List.map_cons, mapMExcept, hfg x (by simp)]
    simp only [Bind.bind, Except.bind]
    rw [ih fun y hy => hfg y (by simp [hy])]
    rfl

theorem splitNl_cons_line (l r : List Char) (h : ('\n' : Char) ∉ l) :
    splitNl (l ++ '\n' :: r) = l :: splitNl r := by
  induction l with
  | nil =>
    show splitNl ('\n' :: r) = [] :: splitNl r
    rw [splitNl]
    simp
  | cons c cs ih =>
    have hc : (c == '\n') = false :=
      beq_eq_false_of_ne c '\n' fun he => h (by simp [he])
    show splitNl (c :: (cs ++ '\n' :: r)) = (c :: cs) :: splitNl r
    rw [splitNl]
    simp only [hc, Bool.false_eq_true, if_false]
    rw [ih fun hm => h (List.mem_cons_of_mem c hm)]

theorem joinLines_splitNl (lines : List (List Char))
    (h : ∀ l ∈ lines, ('\n' : Char) ∉ l) :
    splitNl (joinLines lines) = lines ++ [[]] := by
  induction lines with
  | nil => rfl
  | cons l ls ih =>
    rw [joinLines, splitNl_cons_line l _ (h l (by simp)),
      ih fun x hx => h x (by simp [hx])]
    rfl

theorem filter_lines (lines : List (List Char))
    (h : ∀ l ∈ lines, isSkippable l = false) :
    (lines ++ [[]]).filter (fun l => !isSkippable l) = lines := by
  rw [List.filter_append]
  rw [show ([[]] : List (List Char)).filter (fun l => !isSkippable l) = [] from rfl]
  rw [List.append_nil, List.filter_eq_self.mpr]
  intro a ha
  simp [h a ha]

theorem entryLine_no_nl (e : String × SScalar) : ('\n' : Char) ∉ entryLine e := by
  obtain ⟨k, v2⟩ := e
  intro hm
  rw [entryLine, List.mem_append] at hm
  rcases hm with hm | hm
  · have h2 := (dumpStr_no_nl k.data '\n' hm).1
    simp at h2
  · rcases List.mem_cons.mp hm with hm | hm
    · cases hm
    · rcases List.mem_cons.mp hm with hm | hm
      · cases hm
      · cases v2 with
        | text s =>
          have h2 := (dumpStr_no_nl s.data '\n' hm).1
          simp at h2
        | num n =>
          rcases (intChars_facts n).2.2 '\n' hm with h2 | h2
          · rw [show ('\n' : Char).isDigit = false from by decide] at h2
            cases h2
          · cases h2
        | flag b =>
          cases b with
          | false =>
            rw [show dumpScalar ((k, SScalar.flag false) : String × SScalar).2
              = "false".data from rfl] at hm
            revert hm
            decide
          | true =>
            rw [show dumpScalar ((k, SScalar.flag true) : String × SScalar).2
              = "true".data from rfl] at hm
            revert hm
            decide

theorem isSkippable_entryLine (e : String × SScalar) :
    isSkippable (entryLine e) = false := by
  obtain ⟨c, cs, hcons, hsp, hhash, _, _⟩ := dumpStr_head e.1.data
  rw [entryLine, hcons,
    show (c :: cs) ++ ':' :: ' ' :: dumpScalar e.2
      = c :: (cs ++ ':' :: ' ' :: dumpScalar e.2) by simp]
  rw [isSkippable]
  rw [List.dropWhile_cons]
  simp only [hsp, Bool.false_eq_true, if_false]
  exact hhash

theorem isSeqLine_cons_eq_false (c : Char) (rest : List Char) (h : (c == '-') = false) :
    isSeqLine (c :: rest) = false := by
  cases rest with
  | nil => rfl
  | cons d ds =>
    rw [isSeqLine]
    simp [h]

theorem isSeqLine_entryLine (e : String × SScalar) : isSeqLine (entryLine e) = false := by
  obtain ⟨c, cs, hcons, _, _, hdash, _⟩ := dumpStr_head e.1.data
  rw [entryLine, hcons,
    show (c :: cs) ++ ':' :: ' ' :: dumpScalar e.2
      = c :: (cs ++ ':' :: ' ' :: dumpScalar e.2) by simp]
  exact isSeqLine_cons_eq_false c _ hdash

theorem entryLine_ne_braces (e : String × SScalar) :
    entryLine e ≠ [lbrace, rbrace] := by
  obtain ⟨c, cs, hcons, _, _, _, hlb⟩ := dumpStr_head e.1.data
  rw [entryLine, hcons,
    show (c :: cs) ++ ':' :: ' ' :: dumpScalar e.2
      = c :: (cs ++ ':' :: ' ' :: dumpScalar e.2) by simp]
  intro hEq
  have h1 := (List.cons.inj hEq).1
  subst h1
  simp at hlb

theorem parse_doc_entries (env : Env) (e : String × SScalar)
    (ds : List (String × SScalar)) (henv : ∀ x ∈ e :: ds, entryEnvFree x = true) :
    parse_doc env ((e :: ds).map entryLine) =
      .ok (.map ((e :: ds).map fun x => (x.1, scalarVal x.2))) := by
  rw [List.map_cons, parse_doc]
  rw [if_neg (fun hEq => entryLine_ne_braces e (List.cons.inj hEq).1)]
  simp only [isSeqLine_entryLine, Bool.false_eq_true, if_false]
  rw [show (splitKeyValue (entryLine e)).isNone = false by
    rw [splitKeyValue_entryLine]
    rfl]
  simp only [Bool.and_false, Bool.false_eq_true, if_false]
  rw [if_pos ?hall]
  case hall =>
    rw [List.all_eq_true]
    intro line hline
    rcases List.mem_cons.mp hline with hline | hline
    · subst hline
      rw [splitKeyValue_entryLine]
      rfl
    · rw [List.mem_map] at hline
      obtain ⟨x, _, hx⟩ := hline
      subst hx
      rw [splitKeyValue_entryLine]
      rfl
  rw [← List.map_cons]
  rw [mapMExcept_map (parse_map_line env) entryLine (fun x => (x.1, scalarVal x.2))
    (e :: ds) (fun x hx => parse_map_line_entry env x (henv x hx))]
  rfl

/-- C4 (amended): serializing a string-keyed mapping of text/integer/boolean
scalars with `write_yaml_file`'s serialization and parsing the text back with
`read_yaml` returns exactly that mapping, provided no key and no text value
matches the `!env_var` placeholder pattern that `read_yaml`'s loader
interpolates. -/
theorem C4_roundtrip_env_free (env : Env) (data : List (String × SScalar))
    (henv : data.all entryEnvFree = true) :
    read_yaml env (write_yaml_text data) =
      .ok (.map (data.map fun e => (e.1, scalarVal e.2))) := by
  cases data with
  | nil => rfl
  | cons e ds =>
    have henv2 : ∀ x ∈ e :: ds, entryEnvFree x = true := List.all_eq_true.mp henv
    have hnl : ∀ l ∈ (e :: ds).map entryLine, ('\n' : Char) ∉ l := by
      intro l hl
      rw [List.mem_map] at hl
      obtain ⟨x, _, hx⟩ := hl
      subst hx
      exact entryLine_no_nl x
    have hskip : ∀ l ∈ (e :: ds).map entryLine, isSkippable l = false := by
      intro l hl
      rw [List.mem_map] at hl
      obtain ⟨x, _, hx⟩ := hl
      subst hx
      exact isSkippable_entryLine x
    have hload : yaml_safe_load env (String.mk (joinLines ((e :: ds).map entryLine)))
        = .ok (.map ((e :: ds).map fun x => (x.1, scalarVal x.2))) := by
      rw [yaml_safe_load]
      rw [show (String.mk (joinLines ((e :: ds).map entryLine))).data
        = joinLines ((e :: ds).map entryLine) from rfl]
      rw [joinLines_splitNl _ hnl, filter_lines _ hskip]
      exact parse_doc_entries env e ds henv2
    rw [show write_yaml_text (e :: ds) = String.mk (joinLines ((e :: ds).map entryLine))
      from by rw [write_yaml_text, if_neg (by simp)]]
    rw [read_yaml, hload]
    show Except.ok (pyOrEmptyMap (.map ((e :: ds).map fun x => (x.1, scalarVal x.2)))) = _
    rw [show pyOrEmptyMap (Val.map ((e :: ds).map fun x => (x.1, scalarVal x.2)))
      = Val.map ((e :: ds).map fun x => (x.1, scalarVal x.2)) from by
        rw [pyOrEmptyMap]
        simp [pyTruthy]]

/-- C4 counterexample: the serializer writes a placeholder-shaped text value
as a plain scalar, so parsing the dump of the mapping with
`a = "$\x7bMISSING\x7d"` (with `MISSING` unset) fails with the
unresolved-variable error instead of returning the mapping. -/
theorem C4_roundtrip_counterexample :
    write_yaml_text [("a", .text "$\x7bMISSING\x7d")] = "a: $\x7bMISSING\x7d\n" ∧
    read_yaml (fun _ => none) "a: $\x7bMISSING\x7d\n" =
      .error (.unresolvedVariable "$\x7bMISSING\x7d" ["$\x7bMISSING\x7d"]) ∧
    read_yaml (fun _ => none) (write_yaml_text [("a", .text "$\x7bMISSING\x7d")]) ≠
      .ok (.map [("a", .str "$\x7bMISSING\x7d")]) := by
  have he : read_yaml (fun _ => none) "a: $\x7bMISSING\x7d\n" =
      .error (.unresolvedVariable "$\x7bMISSING\x7d" ["$\x7bMISSING\x7d"]) := by
    simp +decide [read_yaml, yaml_safe_load, parse_doc, parse_value, parse_map_line,
      resolve_plain, resolve_key, env_var_constructor, expandvars, splitNl, isSkippable,
      isSeqLine, splitKeyValue, splitColonSpace, readSQBody, readDQBody, trimSpaces,
      envMatch, nullLits, trueLits, falseLits, intShaped, digitsNonempty, lbrace, rbrace,
      squo, dquo, pyOrEmptyMap, pyTruthy, List.dropWhile, List.takeWhile, pyWords,
      pyIsSpace, isScannerError, mapMExcept, Bind.bind, Except.bind, pure, Except.pure,
      Except.map]
  refine ⟨rfl, he, ?_⟩
  rw [show write_yaml_text [("a", SScalar.text "$\x7bMISSING\x7d")]
    = "a: $\x7bMISSING\x7d\n" from rfl, he]
  intro h
  cases h

/-- Witness for C4 (amended) at a concrete placeholder-free mapping. -/
theorem C4_roundtrip_env_free_witness :
    read_yaml (fun _ => none)
      (write_yaml_text [("name", .text "Alice B."), ("port", .num 8080),
        ("debug", .flag true), ("nl", .text "two\nlines")]) =
      .ok (.map [("name", .str "Alice B."), ("port", .int 8080),
        ("debug", .bool true), ("nl", .str "two\nlines")]) :=
  C4_roundtrip_env_free (fun _ => none)
    [("name", .text "Alice B."), ("port", .num 8080),
      ("debug", .flag true), ("nl", .text "two\nlines")] rfl
